import Mathlib

/-!
Verification of the koishi dispatch kernel core, shallowly embedded from
`src/packages/koishi-core/src/context.ts` and
`src/packages/koishi-core/src/command.ts`.

Strings are modelled as lists of characters; JS numbers appearing as ids are
modelled as `Nat` (the parser only ever produces naturals); timestamps and
durations are modelled as `Int` so that subtraction behaves like JS number
subtraction on integral values.
-/

/-! ## List utilities from the `koishi-utils` package

The utilities package is part of the repository but its sources are not
available here, so these are modelled from the spec.
-/

/-- Modelled from the spec: `contain(array, subset)` from the utilities
package (not under src/) — true iff every element of `subset` occurs in
`array`.  Used by the scope algebra and the cache validity check. -/
def contain [BEq α] (array subset : List α) : Bool :=
  subset.all fun item => array.contains item

/-- Modelled from the spec: `intersection(a, b)` from the utilities package
(not under src/) — the elements of `a` that also occur in `b`. -/
def intersection [BEq α] (a b : List α) : List α :=
  a.filter fun item => b.contains item

/-- Modelled from the spec: `difference(a, b)` from the utilities package
(not under src/) — the elements of `a` that do not occur in `b`. -/
def difference [BEq α] (a b : List α) : List α :=
  a.filter fun item => !b.contains item

/-- Helper for `union`: keeps the first occurrence of every element,
mirroring iteration over a JS `Set` built from a concatenation. -/
def dedupFirstAux [BEq α] (seen : List α) : List α → List α
  | [] => []
  | x :: xs =>
    if seen.contains x then dedupFirstAux seen xs
    else x :: dedupFirstAux (x :: seen) xs

/-- Modelled from the spec: `union(a, b)` from the utilities package (not
under src/) — the set union of the two lists, first occurrences kept. -/
def union [BEq α] (a b : List α) : List α :=
  dedupFirstAux [] (a ++ b)

theorem mem_dedupFirstAux [BEq α] [LawfulBEq α] (x : α) :
    ∀ (l seen : List α), x ∈ dedupFirstAux seen l ↔ x ∈ l ∧ x ∉ seen := by
  intro l
  induction l with
  | nil => intro seen; simp [dedupFirstAux]
  | cons a as ih =>
    intro seen
    by_cases h : seen.contains a = true
    · have ha : a ∈ seen := by simpa [List.contains] using h
      simp only [dedupFirstAux, h, if_pos, ih]
      constructor
      · rintro ⟨hx, hns⟩; exact ⟨List.mem_cons_of_mem _ hx, hns⟩
      · rintro ⟨hx, hns⟩
        rcases List.mem_cons.mp hx with rfl | hx
        · exact absurd ha hns
        · exact ⟨hx, hns⟩
    · have ha : a ∉ seen := by simpa [List.contains] using h
      simp only [dedupFirstAux, h, if_neg, Bool.false_eq_true, not_false_eq_true,
        List.mem_cons, ih]
      constructor
      · rintro (rfl | ⟨hx, hns⟩)
        · exact ⟨Or.inl rfl, ha⟩
        · refine ⟨Or.inr hx, fun hs => hns (by simp [hs])⟩
      · rintro ⟨rfl | hx, hns⟩
        · exact Or.inl rfl
        · by_cases hxa : x = a
          · exact Or.inl hxa
          · exact Or.inr ⟨hx, by simp [hxa, hns]⟩

theorem mem_union [BEq α] [LawfulBEq α] (x : α) (a b : List α) :
    x ∈ union a b ↔ x ∈ a ∨ x ∈ b := by
  simp [union, mem_dedupFirstAux, List.mem_append]

theorem mem_intersection [BEq α] [LawfulBEq α] (x : α) (a b : List α) :
    x ∈ intersection a b ↔ x ∈ a ∧ x ∈ b := by
  simp [intersection, List.mem_filter, List.contains]

theorem mem_difference [BEq α] [LawfulBEq α] (x : α) (a b : List α) :
    x ∈ difference a b ↔ x ∈ a ∧ x ∉ b := by
  simp [difference, List.mem_filter, List.contains]

/-! ## Scope algebra (`context.ts`, `ContextScope` and the `Context`
combinators)

A subscope is the `[include, exclude]` pair for one dimension; `none`
models a JS `null` entry.  A scope is the list of subscopes, one per
dimension (three in the application). -/

/-- One dimension of a scope descriptor: the `[include, exclude]` pair from
`context.ts` (`type Subscope = [number[], number[]]`, where either side may
be `null`). -/
abbrev Subscope := Option (List Nat) × Option (List Nat)

/-- A scope descriptor: one subscope per dimension (`context.ts`,
`type ContextScope = Subscope[]`). -/
abbrev ContextScope := List Subscope

/-- A subscope is well-formed when at least one side is non-null; the code
destructures the relevant side, so a `(null, null)` subscope would throw. -/
def wfSub : Subscope → Bool
  | (none, none) => false
  | _ => true

/-- Matching of one subscope against a candidate id, as in `Context.match`:
`include ? include.includes(id) : !exclude.includes(id)`.  The `(null,
null)` case is unreachable for well-formed subscopes and is mapped to
`false`. -/
def subMatch : Subscope → Nat → Bool
  | (some inc, _), id => inc.contains id
  | (none, some exc), id => !exc.contains id
  | (none, none), _ => false

/-- Per-dimension body of `Context.plus` (`context.ts` lines 91-98). -/
def plusSub : Subscope → Subscope → Subscope
  | (some i1, _), (some i2, _) => (some (union i1 i2), none)
  | (some i1, _), (none, e2) => (none, some (difference (e2.getD []) i1))
  | (none, e1), (some i2, _) => (none, some (difference (e1.getD []) i2))
  | (none, e1), (none, e2) => (none, some (intersection (e1.getD []) (e2.getD [])))

/-- Per-dimension body of `Context.minus` (`context.ts` lines 100-107). -/
def minusSub : Subscope → Subscope → Subscope
  | (some i1, _), (some i2, _) => (some (difference i1 i2), none)
  | (some i1, _), (none, e2) => (some (intersection i1 (e2.getD [])), none)
  | (none, e1), (some i2, _) => (none, some (union i2 (e1.getD [])))
  | (none, e1), (none, e2) => (some (difference (e2.getD []) (e1.getD [])), none)

/-- Per-dimension body of `Context.intersect` (`context.ts` lines 109-116). -/
def intersectSub : Subscope → Subscope → Subscope
  | (some i1, _), (some i2, _) => (some (intersection i1 i2), none)
  | (some i1, _), (none, e2) => (some (difference i1 (e2.getD [])), none)
  | (none, e1), (some i2, _) => (some (difference i2 (e1.getD [])), none)
  | (none, e1), (none, e2) => (none, some (union (e1.getD []) (e2.getD [])))

/-- Per-dimension body of `Context.inverse` (`context.ts` lines 85-89):
`include ? [null, include.slice()] : [exclude.slice(), []]`.  Note that the
exclude-form case produces an *empty list*, not `null`, on the exclude
side. -/
def inverseSub : Subscope → Subscope
  | (some i, _) => (none, some i)
  | (none, e) => (some (e.getD []), some [])

namespace Context

/-- `Context.plus` (`context.ts`): dimension-wise combination of the two
scopes. -/
def plus (a b : ContextScope) : ContextScope := List.zipWith plusSub a b

/-- `Context.minus` (`context.ts`): dimension-wise combination of the two
scopes. -/
def minus (a b : ContextScope) : ContextScope := List.zipWith minusSub a b

/-- `Context.intersect` (`context.ts`): dimension-wise combination of the
two scopes. -/
def intersect (a b : ContextScope) : ContextScope := List.zipWith intersectSub a b

/-- `Context.inverse` (`context.ts`): dimension-wise negation of the
scope. -/
def inverse (a : ContextScope) : ContextScope := a.map inverseSub

/-- An event (`meta`) as far as matching is concerned: `none` models a
missing meta or a meta without a `$ctxType` dimension tag; `some (ty, id)`
carries the dimension index (the value of `contextTypes[meta.$ctxType]`)
and the numeric id `meta.$ctxId`. -/
abbrev MetaTag := Option (Nat × Nat)

/-- `Context.match` (`context.ts` lines 118-122): events without a
dimension tag match unconditionally; otherwise the subscope of the event's
dimension decides. -/
def matchMeta (scope : ContextScope) (meta : MetaTag) : Bool :=
  match meta with
  | none => true
  | some (ty, id) => subMatch (scope.getD ty (none, none)) id

end Context

/-! ### Per-dimension matching laws -/

theorem subMatch_plusSub (s1 s2 : Subscope) (h1 : wfSub s1 = true)
    (h2 : wfSub s2 = true) (id : Nat) :
    subMatch (plusSub s1 s2) id = (subMatch s1 id || subMatch s2 id) := by
  obtain ⟨i1, e1⟩ := s1
  obtain ⟨i2, e2⟩ := s2
  cases i1 <;> cases i2 <;> cases e1 <;> cases e2 <;>
    simp_all [wfSub, plusSub, subMatch, List.contains, mem_union,
      mem_intersection, mem_difference] <;>
    first
    | tauto
    | simp [Bool.or_comm, Bool.and_comm]

theorem subMatch_minusSub (s1 s2 : Subscope) (h1 : wfSub s1 = true)
    (h2 : wfSub s2 = true) (id : Nat) :
    subMatch (minusSub s1 s2) id = (subMatch s1 id && !subMatch s2 id) := by
  obtain ⟨i1, e1⟩ := s1
  obtain ⟨i2, e2⟩ := s2
  cases i1 <;> cases i2 <;> cases e1 <;> cases e2 <;>
    simp_all [wfSub, minusSub, subMatch, List.contains, mem_union,
      mem_intersection, mem_difference] <;>
    first
    | tauto
    | simp [Bool.or_comm, Bool.and_comm]

theorem subMatch_intersectSub (s1 s2 : Subscope) (h1 : wfSub s1 = true)
    (h2 : wfSub s2 = true) (id : Nat) :
    subMatch (intersectSub s1 s2) id = (subMatch s1 id && subMatch s2 id) := by
  obtain ⟨i1, e1⟩ := s1
  obtain ⟨i2, e2⟩ := s2
  cases i1 <;> cases i2 <;> cases e1 <;> cases e2 <;>
    simp_all [wfSub, intersectSub, subMatch, List.contains, mem_union,
      mem_intersection, mem_difference] <;>
    first
    | tauto
    | simp [Bool.or_comm, Bool.and_comm]

theorem subMatch_inverseSub (s : Subscope) (h : wfSub s = true) (id : Nat) :
    subMatch (inverseSub s) id = !subMatch s id := by
  obtain ⟨i, e⟩ := s
  cases i <;> cases e <;> simp_all [wfSub, inverseSub, subMatch]

/-! ### Indexing helpers -/

theorem getD_zipWith (f : α → α → α) :
    ∀ (a b : List α) (n : Nat) (d : α), n < a.length → n < b.length →
      (List.zipWith f a b).getD n d = f (a.getD n d) (b.getD n d) := by
  intro a
  induction a with
  | nil => intro b n d h _; simp at h
  | cons x xs ih =>
    intro b n d h hb
    cases b with
    | nil => simp at hb
    | cons y ys =>
      cases n with
      | zero => simp [List.getD]
      | succ m =>
        simp only [List.zipWith_cons_cons, List.getD_cons_succ]
        exact ih ys m d (by simpa using h) (by simpa using hb)

theorem getD_map (f : α → α) :
    ∀ (a : List α) (n : Nat) (d : α), n < a.length →
      (a.map f).getD n d = f (a.getD n d) := by
  intro a
  induction a with
  | nil => intro n d h; simp at h
  | cons x xs ih =>
    intro n d h
    cases n with
    | zero => simp [List.getD]
    | succ m =>
      simp only [List.map_cons, List.getD_cons_succ]
      exact ih m d (by simpa using h)

theorem getD_mem : ∀ (a : List α) (n : Nat) (d : α), n < a.length →
    a.getD n d ∈ a := by
  intro a
  induction a with
  | nil => intro n d h; simp at h
  | cons x xs ih =>
    intro n d h
    cases n with
    | zero => simp [List.getD]
    | succ m =>
      simp only [List.getD_cons_succ]
      exact List.mem_cons_of_mem _ (ih m d (by simpa using h))

/-! ## Claim C1: matching laws of the combinators -/

/-- C1 (counterexample): the claim quantifies over *every* event, but
`Context.match` returns `true` for any event without a dimension tag, so
the inverse law `A.inverse().match(e) == !A.match(e)` fails on such an
event: both sides match it. -/
theorem c1_counterexample :
    ¬ (Context.matchMeta
        (Context.inverse [(some [1], none), (some [2], none), (some [3], none)]) none
      = !Context.matchMeta [(some [1], none), (some [2], none), (some [3], none)] none) := by
  decide

/-- C1 (amended): for well-formed scopes of equal dimension count and every
event that *carries a dimension tag* (with an in-range dimension index),
the combinators satisfy the four matching laws: `plus` is disjunction,
`minus` is conjunction with negation, `intersect` is conjunction, and
`inverse` is negation of `match`. -/
theorem c1_match_laws (A B : ContextScope)
    (hA : ∀ s ∈ A, wfSub s = true) (hB : ∀ s ∈ B, wfSub s = true)
    (hlen : A.length = B.length) (ty id : Nat) (hty : ty < A.length) :
    Context.matchMeta (Context.plus A B) (some (ty, id))
        = (Context.matchMeta A (some (ty, id)) || Context.matchMeta B (some (ty, id)))
    ∧ Context.matchMeta (Context.minus A B) (some (ty, id))
        = (Context.matchMeta A (some (ty, id)) && !Context.matchMeta B (some (ty, id)))
    ∧ Context.matchMeta (Context.intersect A B) (some (ty, id))
        = (Context.matchMeta A (some (ty, id)) && Context.matchMeta B (some (ty, id)))
    ∧ Context.matchMeta (Context.inverse A) (some (ty, id))
        = !Context.matchMeta A (some (ty, id)) := by
  have htyB : ty < B.length := hlen ▸ hty
  have hwa : wfSub (A.getD ty (none, none)) = true := hA _ (getD_mem A ty _ hty)
  have hwb : wfSub (B.getD ty (none, none)) = true := hB _ (getD_mem B ty _ htyB)
  refine ⟨?_, ?_, ?_, ?_⟩
  · show subMatch ((List.zipWith plusSub A B).getD ty (none, none)) id = _
    rw [getD_zipWith plusSub A B ty (none, none) hty htyB]
    exact subMatch_plusSub _ _ hwa hwb id
  · show subMatch ((List.zipWith minusSub A B).getD ty (none, none)) id = _
    rw [getD_zipWith minusSub A B ty (none, none) hty htyB]
    exact subMatch_minusSub _ _ hwa hwb id
  · show subMatch ((List.zipWith intersectSub A B).getD ty (none, none)) id = _
    rw [getD_zipWith intersectSub A B ty (none, none) hty htyB]
    exact subMatch_intersectSub _ _ hwa hwb id
  · show subMatch ((A.map inverseSub).getD ty (none, none)) id = _
    rw [getD_map inverseSub A ty (none, none) hty]
    exact subMatch_inverseSub _ hwa id

/-- C1 witness: the amended matching laws evaluated at concrete scopes, a
concrete dimension and id. -/
theorem c1_match_laws_witness :
    Context.matchMeta
        (Context.plus [(some [1, 2], none), (none, some [3]), (some [], none)]
          [(none, some [1]), (some [4], none), (none, some [])]) (some (0, 1))
      = (Context.matchMeta [(some [1, 2], none), (none, some [3]), (some [], none)] (some (0, 1))
          || Context.matchMeta [(none, some [1]), (some [4], none), (none, some [])] (some (0, 1)))
    ∧ Context.matchMeta
        (Context.minus [(some [1, 2], none), (none, some [3]), (some [], none)]
          [(none, some [1]), (some [4], none), (none, some [])]) (some (0, 1))
      = (Context.matchMeta [(some [1, 2], none), (none, some [3]), (some [], none)] (some (0, 1))
          && !Context.matchMeta [(none, some [1]), (some [4], none), (none, some [])] (some (0, 1)))
    ∧ Context.matchMeta
        (Context.intersect [(some [1, 2], none), (none, some [3]), (some [], none)]
          [(none, some [1]), (some [4], none), (none, some [])]) (some (0, 1))
      = (Context.matchMeta [(some [1, 2], none), (none, some [3]), (some [], none)] (some (0, 1))
          && Context.matchMeta [(none, some [1]), (some [4], none), (none, some [])] (some (0, 1)))
    ∧ Context.matchMeta
        (Context.inverse [(some [1, 2], none), (none, some [3]), (some [], none)]) (some (0, 1))
      = !Context.matchMeta [(some [1, 2], none), (none, some [3]), (some [], none)] (some (0, 1)) :=
  c1_match_laws [(some [1, 2], none), (none, some [3]), (some [], none)]
    [(none, some [1]), (some [4], none), (none, some [])]
    (by decide) (by decide) (by decide) 0 1 (by decide)

/-! ## Claim C8: representation exactness of the combinator case table -/

/-- C8 (counterexample): for a dimension where both operands are in exclude
form, the claim says `minus` yields the exclude-form subscope
`(null, difference(exc2, exc1))`; the code (`context.ts` line 105) instead
yields the *include-form* subscope `(difference(exc2, exc1), null)`. -/
theorem c8_counterexample :
    minusSub (none, some [1]) (none, some [1, 2])
      ≠ ((none, some (difference [1, 2] [1])) : Subscope) := by
  decide

/-- C8 (amended): for a dimension where both operands are in exclude form,
`minus` yields the include-form subscope `(difference(exc2, exc1), null)`;
and `inverse` of an exclude-form subscope yields `(exc.copy(), [])` — the
exclude list becomes the include list while the other side becomes the
*empty list*, not null (the include side takes precedence in matching, so
the predicate is still exactly negated). -/
theorem c8_representation (e1 e2 e : List Nat) :
    minusSub (none, some e1) (none, some e2) = (some (difference e2 e1), none)
    ∧ inverseSub (none, some e) = (some e, some []) := by
  exact ⟨rfl, rfl⟩

/-! ## Strings, serialization and parsing (`ContextScope.stringify` /
`ContextScope.parse`)

JS strings are modelled as lists of characters. -/

/-- The character-list model of a string. -/
abbrev Str := List Char

/-- Coerce a Lean string literal to its character-list model. -/
def str (s : String) : Str := s.data

/-- JS `String.prototype.split` with a one-character separator: splitting
the empty string yields `[""]`, and consecutive separators yield empty
pieces. -/
def splitOnChar (sep : Char) : Str → List Str
  | [] => [[]]
  | c :: cs =>
    match splitOnChar sep cs with
    | [] => [[]]
    | h :: t => if c = sep then [] :: h :: t else (c :: h) :: t

/-- JS `Array.prototype.join` with a one-character separator. -/
def joinSep (sep : Char) : List Str → Str
  | [] => []
  | [p] => p
  | p :: ps => p ++ sep :: joinSep sep ps

theorem splitOnChar_ne_nil (sep : Char) : ∀ s : Str, splitOnChar sep s ≠ [] := by
  intro s
  cases s with
  | nil => simp [splitOnChar]
  | cons c cs =>
    simp only [splitOnChar]
    cases hs : splitOnChar sep cs with
    | nil => simp
    | cons h t => by_cases hc : c = sep <;> simp [hc]

theorem splitOnChar_no_sep (sep : Char) :
    ∀ s : Str, sep ∉ s → splitOnChar sep s = [s] := by
  intro s
  induction s with
  | nil => intro _; rfl
  | cons c cs ih =>
    intro h
    have hc : c ≠ sep := fun hcs => h (by simp [hcs])
    have hcs : sep ∉ cs := fun hm => h (List.mem_cons_of_mem _ hm)
    simp [splitOnChar, ih hcs, hc]

theorem splitOnChar_append (sep : Char) :
    ∀ (p r : Str), sep ∉ p →
      splitOnChar sep (p ++ sep :: r) = p :: splitOnChar sep r := by
  intro p
  induction p with
  | nil =>
    intro r _
    simp only [List.nil_append, splitOnChar]
    cases h : splitOnChar sep r with
    | nil => exact absurd h (splitOnChar_ne_nil sep r)
    | cons a t => simp
  | cons c cs ih =>
    intro r h
    have hc : c ≠ sep := fun hcs => h (by simp [hcs])
    have hcs : sep ∉ cs := fun hm => h (List.mem_cons_of_mem _ hm)
    simp only [List.cons_append, splitOnChar, List.append_eq]
    rw [ih r hcs]
    simp [hc]

theorem splitOnChar_joinSep (sep : Char) :
    ∀ ls : List Str, ls ≠ [] → (∀ p ∈ ls, sep ∉ p) →
      splitOnChar sep (joinSep sep ls) = ls := by
  intro ls
  induction ls with
  | nil => intro h _; exact absurd rfl h
  | cons p ps ih =>
    intro _ hmem
    cases ps with
    | nil => exact splitOnChar_no_sep sep p (hmem p (by simp))
    | cons q qs =>
      show splitOnChar sep (p ++ sep :: joinSep sep (q :: qs)) = _
      rw [splitOnChar_append sep p _ (hmem p (by simp))]
      rw [ih (by simp) (fun x hx => hmem x (List.mem_cons_of_mem _ hx))]

theorem mem_joinSep (sep : Char) (c : Char) :
    ∀ ls : List Str, c ∈ joinSep sep ls → c = sep ∨ ∃ p ∈ ls, c ∈ p := by
  intro ls
  induction ls with
  | nil => intro h; simp [joinSep] at h
  | cons p ps ih =>
    intro h
    cases ps with
    | nil =>
      exact Or.inr ⟨p, by simp, h⟩
    | cons q qs =>
      rcases List.mem_append.mp h with hp | hrest
      · exact Or.inr ⟨p, by simp, hp⟩
      · rcases List.mem_cons.mp hrest with rfl | hj
        · exact Or.inl rfl
        · rcases ih hj with hs | ⟨x, hx, hcx⟩
          · exact Or.inl hs
          · exact Or.inr ⟨x, List.mem_cons_of_mem _ hx, hcx⟩

/-! ### Decimal numbers -/

/-- Is the character a decimal digit (the `\d` of the parse regex)? -/
def isDigitCh (c : Char) : Bool := '0' ≤ c && c ≤ '9'

/-- JS number-to-string conversion for a natural number: standard decimal
notation (the semantics of `${n}` and `Array.prototype.join` on numbers). -/
def natToStr (n : Nat) : Str :=
  if n = 0 then ['0'] else ((Nat.digits 10 n).map Nat.digitChar).reverse

/-- JS string-to-number conversion (`+n`) restricted to all-digit strings:
the decimal value. -/
def strToNat (s : Str) : Nat :=
  s.foldl (fun a c => a * 10 + (c.toNat - 48)) 0

theorem digitChar_toNat {d : Nat} (h : d < 10) : (Nat.digitChar d).toNat = 48 + d := by
  interval_cases d <;> decide

theorem isDigitCh_digitChar {d : Nat} (h : d < 10) : isDigitCh (Nat.digitChar d) = true := by
  interval_cases d <;> decide

theorem strToNat_rev_digits :
    ∀ ds : List Nat, (∀ d ∈ ds, d < 10) →
      List.foldl (fun a c => a * 10 + (c.toNat - 48)) 0
        ((ds.map Nat.digitChar).reverse) = Nat.ofDigits 10 ds := by
  intro ds
  induction ds with
  | nil => intro _; simp [Nat.ofDigits]
  | cons d rest ih =>
    intro h
    have hd : d < 10 := h d (by simp)
    have hrest : ∀ x ∈ rest, x < 10 := fun x hx => h x (List.mem_cons_of_mem _ hx)
    simp only [List.map_cons, List.reverse_cons, List.foldl_append, ih hrest,
      List.foldl_cons, List.foldl_nil, Nat.ofDigits_cons, digitChar_toNat hd]
    omega

theorem strToNat_natToStr (n : Nat) : strToNat (natToStr n) = n := by
  by_cases h : n = 0
  · subst h; decide
  · unfold natToStr strToNat
    rw [if_neg h]
    rw [strToNat_rev_digits _ (fun d hd => Nat.digits_lt_base (by norm_num) hd)]
    exact Nat.ofDigits_digits 10 n

theorem natToStr_ne_nil (n : Nat) : natToStr n ≠ [] := by
  unfold natToStr
  by_cases h : n = 0
  · simp [h]
  · rw [if_neg h]
    have : Nat.digits 10 n ≠ [] := Nat.digits_ne_nil_iff_ne_zero.mpr h
    simpa using this

theorem natToStr_all_digit (n : Nat) : ∀ c ∈ natToStr n, isDigitCh c = true := by
  intro c hc
  unfold natToStr at hc
  by_cases h : n = 0
  · simp [h] at hc; subst hc; decide
  · rw [if_neg h] at hc
    rw [List.mem_reverse] at hc
    rcases List.mem_map.mp hc with ⟨d, hd, rfl⟩
    exact isDigitCh_digitChar (Nat.digits_lt_base (by norm_num) hd)

theorem isDigitCh_ne (c : Char) (h : isDigitCh c = true) :
    c ≠ ';' ∧ c ≠ ',' ∧ c ≠ '+' ∧ c ≠ '-' := by
  refine ⟨?_, ?_, ?_, ?_⟩ <;> rintro rfl <;> simp [isDigitCh] at h

/-! ### `ContextScope.stringify` and `ContextScope.parse` (`context.ts`
lines 19-43) -/

/-- The `contextTypes` two-way map restricted to index-to-name direction.
The three dimension names are fixed by the parse regex in `context.ts`
(`user|group|discuss`); out-of-range indices give the JS string
`"undefined"` as interpolation of `undefined` would. -/
def ctxTypeName : Nat → Str
  | 0 => str "user"
  | 1 => str "group"
  | 2 => str "discuss"
  | _ => str "undefined"

/-- `idList.join(',')` for a list of numeric ids. -/
def idListStr (l : List Nat) : Str := joinSep ',' (l.map natToStr)

/-- One mapped element of `ContextScope.stringify`:
`` `${type}${sign}${idList.join(',')}` `` where `sign` is `'+'` when the
include side is non-null and the id list is `include || exclude`. -/
def segString (i : Nat) (s : Subscope) : Str :=
  ctxTypeName i ++ (if s.1.isSome then '+' else '-') :: idListStr (s.1.getD (s.2.getD []))

/-- The indexed map underlying `ContextScope.stringify`. -/
def stringifyAux : Nat → ContextScope → List Str
  | _, [] => []
  | i, s :: rest => segString i s :: stringifyAux (i + 1) rest

/-- `ContextScope.stringify` (`context.ts` lines 20-27): serialize each
dimension, drop falsy (empty) strings, join with `';'`. -/
def ContextScope.stringify (scope : ContextScope) : Str :=
  joinSep ';' ((stringifyAux 0 scope).filter fun s => !s.isEmpty)

/-- The all-empty-include scope (`context.ts` line 42, `noopScope`). -/
def noopScope : ContextScope := [(some [], none), (some [], none), (some [], none)]

/-- Does the string consist of one or more comma-separated runs of digits
(the `\d+(?:,\d+)*` part of the parse regex)? -/
def numListOk (s : Str) : Bool :=
  !s.isEmpty && (splitOnChar ',' s).all fun chunk => !chunk.isEmpty && chunk.all isDigitCh

/-- `list.split(',').map(n => +n)`: the numeric id list of a segment. -/
def parseIds (s : Str) : List Nat := (splitOnChar ',' s).map strToNat

/-- Attempt to match one segment against a single alternative of the parse
regex `^(user|group|discuss)(?:([+-])(\d+(?:,\d+)*))?$`: `name` must be a
prefix and the remainder must be empty (sign defaults to `'-'` with an
empty id list) or a sign followed by a digit list.  Returns the dimension
index, whether the sign is `'+'`, and the ids. -/
def trySegName (name : Str) (idx : Nat) (seg : Str) : Option (Nat × Bool × List Nat) :=
  if name.isPrefixOf seg then
    match seg.drop name.length with
    | [] => some (idx, false, [])
    | c :: rest =>
      if (c == '+' || c == '-') && numListOk rest then some (idx, c == '+', parseIds rest)
      else none
  else none

/-- Match one segment against the full parse regex: the three dimension
alternatives tried in order (they are pairwise non-prefixes, so at most one
can succeed). -/
def parseSegment (seg : Str) : Option (Nat × Bool × List Nat) :=
  (trySegName (str "user") 0 seg).orElse fun _ =>
    (trySegName (str "group") 1 seg).orElse fun _ =>
      trySegName (str "discuss") 2 seg

/-- The per-segment body of `ContextScope.parse`: on a regex failure throw
the malformed-identifier error, otherwise assign
`scope[contextTypes[type]] = sign === '+' ? [idList, null] : [null, idList]`. -/
def parseStep (scope : ContextScope) (seg : Str) : Except String ContextScope :=
  match parseSegment seg with
  | none => Except.error "INVALID_IDENTIFIER"
  | some (idx, plus, ids) =>
      Except.ok (scope.set idx (if plus then (some ids, none) else (none, some ids)))

/-- `ContextScope.parse` (`context.ts` lines 29-39): split the identifier
on `';'` and process every segment in order, starting from a copy of
`noopScope`. -/
def ContextScope.parse (identifier : Str) : Except String ContextScope :=
  List.foldlM parseStep noopScope (splitOnChar ';' identifier)

/-- Is an `Except` value an error? -/
def exceptIsError : Except ε α → Bool
  | Except.error _ => true
  | Except.ok _ => false

/-- Modelled from the spec: the optional `([+-]id(,id)*)?` tail of the
segment grammar. -/
def optSignList (s : Str) : Bool :=
  s.isEmpty ||
    match s with
    | [] => true
    | c :: rest => (c == '+' || c == '-') && numListOk rest

/-- Modelled from the spec (with the dimension keywords the code actually
accepts): a segment matches the grammar `(user|group|discuss)([+-]id(,id)*)?`. -/
def segGrammar (seg : Str) : Bool :=
  [str "user", str "group", str "discuss"].any fun name =>
    name.isPrefixOf seg && optSignList (seg.drop name.length)

/-- Modelled from the spec, verbatim: a segment matches the claimed grammar
`(direct|group|discuss)([+-]id(,id)*)?` (the claim's keyword `direct` in
place of the code's `user`). -/
def segGrammarClaimed (seg : Str) : Bool :=
  [str "direct", str "group", str "discuss"].any fun name =>
    name.isPrefixOf seg && optSignList (seg.drop name.length)

/-- A subscope in the image of `stringify` that `parse` can reproduce:
exactly one side is non-null and that side is a non-empty id list. -/
def goodSub : Subscope → Bool
  | (some (_ :: _), none) => true
  | (none, some (_ :: _)) => true
  | _ => false

theorem isSome_orElse (a : Option α) (f : Unit → Option α) :
    (a.orElse f).isSome = (a.isSome || (f ()).isSome) := by
  cases a <;> simp [Option.orElse]

theorem isSome_trySegName (name : Str) (idx : Nat) (seg : Str) :
    (trySegName name idx seg).isSome
      = (name.isPrefixOf seg && optSignList (seg.drop name.length)) := by
  unfold trySegName optSignList
  cases h : name.isPrefixOf seg
  · simp
  · cases hd : seg.drop name.length with
    | nil => simp
    | cons c rest =>
      by_cases hs : ((c == '+' || c == '-') && numListOk rest) = true <;> simp [hs]

theorem isSome_parseSegment (seg : Str) :
    (parseSegment seg).isSome = segGrammar seg := by
  unfold parseSegment segGrammar
  rw [isSome_orElse, isSome_orElse, isSome_trySegName, isSome_trySegName,
    isSome_trySegName]
  simp [Bool.or_assoc]

theorem parse_foldlM_isError :
    ∀ (segs : List Str) (scope : ContextScope),
      exceptIsError (List.foldlM parseStep scope segs)
        = segs.any fun seg => !(parseSegment seg).isSome := by
  intro segs
  induction segs with
  | nil => intro scope; simp [List.foldlM, exceptIsError, pure, Except.pure]
  | cons s rest ih =>
    intro scope
    rw [List.foldlM_cons]
    cases hps : parseSegment s with
    | none =>
      simp [parseStep, hps, Bind.bind, Except.bind, exceptIsError]
    | some v =>
      obtain ⟨idx, plus, ids⟩ := v
      simp only [parseStep, hps, Bind.bind, Except.bind]
      rw [ih]
      simp [hps]

/-! ## Claim C9: the parse grammar -/

/-- Sanity: the spec's own scenario string parses. -/
example :
    ContextScope.parse (str "user+1,2;group-3")
      = Except.ok [(some [1, 2], none), (none, some [3]), (some [], none)] := by
  rfl

/-- C9 (counterexample): the claim states that `parse` throws iff some
segment fails the grammar `(direct|group|discuss)([+-]id(,id)*)?`.  On the
input `"direct"` the single segment *matches* that grammar, yet `parse`
throws: the code's regex (`context.ts` line 32) accepts `user`, not
`direct`, as the first dimension keyword. -/
theorem c9_counterexample :
    ¬ (exceptIsError (ContextScope.parse (str "direct"))
        = (splitOnChar ';' (str "direct")).any fun seg => !segGrammarClaimed seg) := by
  decide

/-- C9 (amended): for every input string, `parse` throws the
malformed-identifier error if and only if some `;`-separated segment fails
to match the grammar `(user|group|discuss)([+-]id(,id)*)?` — the first
dimension keyword is `user`, not `direct`. -/
theorem c9_parse_error_iff (ident : Str) :
    exceptIsError (ContextScope.parse ident)
      = (splitOnChar ';' ident).any fun seg => !segGrammar seg := by
  unfold ContextScope.parse
  rw [parse_foldlM_isError]
  congr 1
  funext seg
  rw [isSome_parseSegment]

/-! ## Claim C2: the `parse`/`stringify` round trip -/

theorem isPrefixOf_append_self : ∀ (a b : Str), a.isPrefixOf (a ++ b) = true := by
  intro a b
  induction a with
  | nil => simp [List.isPrefixOf]
  | cons c cs ih =>
    show (c == c && cs.isPrefixOf (cs ++ b)) = true
    simp [ih]

theorem isPrefixOf_head_ne {a b : Char} (as bs : Str) (h : (a == b) = false) :
    (a :: as).isPrefixOf (b :: bs) = false := by
  show (a == b && as.isPrefixOf bs) = false
  rw [h]
  rfl

theorem trySegName_head_ne {a b : Char} (as : Str) (idx : Nat) (bs : Str)
    (h : (a == b) = false) : trySegName (a :: as) idx (b :: bs) = none := by
  simp [trySegName, isPrefixOf_head_ne as bs h]

theorem trySegName_append (name : Str) (idx : Nat) (c : Char) (rest : Str) :
    trySegName name idx (name ++ c :: rest)
      = if (c == '+' || c == '-') && numListOk rest
        then some (idx, c == '+', parseIds rest) else none := by
  unfold trySegName
  rw [if_pos (isPrefixOf_append_self name (c :: rest))]
  rw [List.drop_left]

theorem splitOnChar_idListStr (l : List Nat) (hl : l ≠ []) :
    splitOnChar ',' (idListStr l) = l.map natToStr := by
  unfold idListStr
  apply splitOnChar_joinSep
  · simpa using hl
  · intro p hp hc
    rcases List.mem_map.mp hp with ⟨n, _, rfl⟩
    exact absurd (natToStr_all_digit n ',' hc) (by decide)

theorem joinSep_ne_nil (sep : Char) (ls : List Str) (h : ls ≠ [])
    (hne : ∀ p ∈ ls, p ≠ []) : joinSep sep ls ≠ [] := by
  cases ls with
  | nil => exact absurd rfl h
  | cons p ps =>
    cases ps with
    | nil => exact hne p (by simp)
    | cons q qs =>
      show p ++ sep :: joinSep sep (q :: qs) ≠ []
      cases p <;> simp

theorem numListOk_idListStr (l : List Nat) (hl : l ≠ []) :
    numListOk (idListStr l) = true := by
  unfold numListOk
  rw [splitOnChar_idListStr l hl]
  refine Bool.and_eq_true_iff.mpr ⟨?_, ?_⟩
  · have : idListStr l ≠ [] := by
      apply joinSep_ne_nil
      · simpa using hl
      · intro p hp
        rcases List.mem_map.mp hp with ⟨n, _, rfl⟩
        exact natToStr_ne_nil n
    unfold idListStr at this
    simpa [List.isEmpty_iff] using this
  · rw [List.all_eq_true]
    intro chunk hc
    rcases List.mem_map.mp hc with ⟨n, _, rfl⟩
    refine Bool.and_eq_true_iff.mpr ⟨?_, ?_⟩
    · simpa [List.isEmpty_iff] using natToStr_ne_nil n
    · rw [List.all_eq_true]
      exact natToStr_all_digit n

theorem parseIds_idListStr (l : List Nat) (hl : l ≠ []) :
    parseIds (idListStr l) = l := by
  unfold parseIds
  rw [splitOnChar_idListStr l hl, List.map_map]
  have h : strToNat ∘ natToStr = id := funext strToNat_natToStr
  rw [h, List.map_id]

theorem semi_not_mem_idListStr (l : List Nat) : ';' ∉ idListStr l := by
  intro h
  rcases mem_joinSep ',' ';' _ h with h | ⟨p, hp, hcp⟩
  · exact absurd h (by decide)
  · rcases List.mem_map.mp hp with ⟨n, _, rfl⟩
    exact absurd (natToStr_all_digit n ';' hcp) (by decide)

theorem semi_not_mem_segString (i : Nat) (hi : i < 3) (s : Subscope) :
    ';' ∉ segString i s := by
  intro h
  unfold segString at h
  rcases List.mem_append.mp h with hn | hrest
  · interval_cases i <;> revert hn <;> decide
  · rcases List.mem_cons.mp hrest with h1 | h2
    · split at h1 <;> exact absurd h1 (by decide)
    · exact semi_not_mem_idListStr _ h2

theorem parseSegment_plus (i : Nat) (hi : i < 3) (l : List Nat) (hl : l ≠ []) :
    parseSegment (segString i (some l, none)) = some (i, true, l) := by
  have hcond : (((('+' : Char) == '+') || (('+' : Char) == '-')) && numListOk (idListStr l)) = true := by
    rw [numListOk_idListStr l hl]; decide
  have happ : ∀ name idx, trySegName name idx (name ++ ('+' : Char) :: idListStr l)
      = some (idx, true, l) := by
    intro name idx
    rw [trySegName_append, if_pos hcond, parseIds_idListStr l hl]
    simp
  interval_cases i
  · show (trySegName (str "user") 0 (str "user" ++ '+' :: idListStr l)).orElse _ = _
    rw [happ]
    rfl
  · show (trySegName (str "user") 0 (str "group" ++ '+' :: idListStr l)).orElse _ = _
    rw [show trySegName (str "user") 0 (str "group" ++ '+' :: idListStr l) = none from
      trySegName_head_ne _ 0 _ (by decide)]
    show (trySegName (str "group") 1 (str "group" ++ '+' :: idListStr l)).orElse _ = _
    rw [happ]
    rfl
  · show (trySegName (str "user") 0 (str "discuss" ++ '+' :: idListStr l)).orElse _ = _
    rw [show trySegName (str "user") 0 (str "discuss" ++ '+' :: idListStr l) = none from
      trySegName_head_ne _ 0 _ (by decide)]
    show (trySegName (str "group") 1 (str "discuss" ++ '+' :: idListStr l)).orElse _ = _
    rw [show trySegName (str "group") 1 (str "discuss" ++ '+' :: idListStr l) = none from
      trySegName_head_ne _ 1 _ (by decide)]
    show trySegName (str "discuss") 2 (str "discuss" ++ '+' :: idListStr l) = _
    exact happ _ 2

theorem parseSegment_minus (i : Nat) (hi : i < 3) (l : List Nat) (hl : l ≠ []) :
    parseSegment (segString i (none, some l)) = some (i, false, l) := by
  have hcond : (((('-' : Char) == '+') || (('-' : Char) == '-')) && numListOk (idListStr l)) = true := by
    rw [numListOk_idListStr l hl]; decide
  have happ : ∀ name idx, trySegName name idx (name ++ ('-' : Char) :: idListStr l)
      = some (idx, false, l) := by
    intro name idx
    rw [trySegName_append, if_pos hcond, parseIds_idListStr l hl]
    simp
  interval_cases i
  · show (trySegName (str "user") 0 (str "user" ++ '-' :: idListStr l)).orElse _ = _
    rw [happ]
    rfl
  · show (trySegName (str "user") 0 (str "group" ++ '-' :: idListStr l)).orElse _ = _
    rw [show trySegName (str "user") 0 (str "group" ++ '-' :: idListStr l) = none from
      trySegName_head_ne _ 0 _ (by decide)]
    show (trySegName (str "group") 1 (str "group" ++ '-' :: idListStr l)).orElse _ = _
    rw [happ]
    rfl
  · show (trySegName (str "user") 0 (str "discuss" ++ '-' :: idListStr l)).orElse _ = _
    rw [show trySegName (str "user") 0 (str "discuss" ++ '-' :: idListStr l) = none from
      trySegName_head_ne _ 0 _ (by decide)]
    show (trySegName (str "group") 1 (str "discuss" ++ '-' :: idListStr l)).orElse _ = _
    rw [show trySegName (str "group") 1 (str "discuss" ++ '-' :: idListStr l) = none from
      trySegName_head_ne _ 1 _ (by decide)]
    show trySegName (str "discuss") 2 (str "discuss" ++ '-' :: idListStr l) = _
    exact happ _ 2

theorem parseSegment_segString (i : Nat) (hi : i < 3) (s : Subscope)
    (hs : goodSub s = true) :
    ∃ plus ids, parseSegment (segString i s) = some (i, plus, ids)
      ∧ (if plus then ((some ids, none) : Subscope) else (none, some ids)) = s := by
  obtain ⟨inc, exc⟩ := s
  cases inc with
  | some l =>
    cases exc with
    | none =>
      cases l with
      | nil => simp [goodSub] at hs
      | cons a as =>
        exact ⟨true, a :: as, parseSegment_plus i hi (a :: as) (by simp), by simp⟩
    | some e => cases l <;> simp [goodSub] at hs
  | none =>
    cases exc with
    | some l =>
      cases l with
      | nil => simp [goodSub] at hs
      | cons a as =>
        exact ⟨false, a :: as, parseSegment_minus i hi (a :: as) (by simp), by simp⟩
    | none => simp [goodSub] at hs

/-- C2 (counterexample): the canonical serialization of the null scope is
`"user+;group+;discuss+"`, whose segments have a sign but no id list; the
parse regex requires at least one digit after a sign, so `parse` throws
instead of returning the null scope. -/
theorem c2_counterexample :
    ContextScope.parse (ContextScope.stringify noopScope) ≠ Except.ok noopScope := by
  intro h
  rw [show ContextScope.parse (ContextScope.stringify noopScope)
      = Except.error "INVALID_IDENTIFIER" from rfl] at h
  exact Except.noConfusion h

/-- C2 (amended): for every three-dimensional descriptor `S` in which every
dimension has exactly one non-null side holding a *non-empty* id list,
`parse(stringify(S)) == S`.  Descriptors with an empty list in some
dimension (such as the null scope) serialize to a segment with a sign but
no digits, which `parse` rejects. -/
theorem c2_roundtrip (s0 s1 s2 : Subscope) (h0 : goodSub s0 = true)
    (h1 : goodSub s1 = true) (h2 : goodSub s2 = true) :
    ContextScope.parse (ContextScope.stringify [s0, s1, s2])
      = Except.ok [s0, s1, s2] := by
  obtain ⟨p0, l0, hp0, hr0⟩ := parseSegment_segString 0 (by norm_num) s0 h0
  obtain ⟨p1, l1, hp1, hr1⟩ := parseSegment_segString 1 (by norm_num) s1 h1
  obtain ⟨p2, l2, hp2, hr2⟩ := parseSegment_segString 2 (by norm_num) s2 h2
  have hstr : ContextScope.stringify [s0, s1, s2]
      = joinSep ';' [segString 0 s0, segString 1 s1, segString 2 s2] := by
    unfold ContextScope.stringify
    congr 1
  have hsplit : splitOnChar ';' (ContextScope.stringify [s0, s1, s2])
      = [segString 0 s0, segString 1 s1, segString 2 s2] := by
    rw [hstr]
    apply splitOnChar_joinSep _ _ (by simp)
    intro p hp
    rcases List.mem_cons.mp hp with rfl | hp
    · exact semi_not_mem_segString 0 (by norm_num) s0
    rcases List.mem_cons.mp hp with rfl | hp
    · exact semi_not_mem_segString 1 (by norm_num) s1
    rcases List.mem_cons.mp hp with rfl | hp
    · exact semi_not_mem_segString 2 (by norm_num) s2
    simp at hp
  have step0 : parseStep noopScope (segString 0 s0) = Except.ok (noopScope.set 0 s0) := by
    unfold parseStep
    rw [hp0]
    show Except.ok (noopScope.set 0 (if p0 then (some l0, none) else (none, some l0))) = _
    rw [hr0]
  have step1 : parseStep (noopScope.set 0 s0) (segString 1 s1)
      = Except.ok ((noopScope.set 0 s0).set 1 s1) := by
    unfold parseStep
    rw [hp1]
    show Except.ok ((noopScope.set 0 s0).set 1 (if p1 then (some l1, none) else (none, some l1))) = _
    rw [hr1]
  have step2 : parseStep ((noopScope.set 0 s0).set 1 s1) (segString 2 s2)
      = Except.ok (((noopScope.set 0 s0).set 1 s1).set 2 s2) := by
    unfold parseStep
    rw [hp2]
    show Except.ok (((noopScope.set 0 s0).set 1 s1).set 2
      (if p2 then (some l2, none) else (none, some l2))) = _
    rw [hr2]
  unfold ContextScope.parse
  rw [hsplit]
  rw [List.foldlM_cons, step0]
  show List.foldlM parseStep (noopScope.set 0 s0) [segString 1 s1, segString 2 s2] = _
  rw [List.foldlM_cons, step1]
  show List.foldlM parseStep ((noopScope.set 0 s0).set 1 s1) [segString 2 s2] = _
  rw [List.foldlM_cons, step2]
  show Except.ok (((noopScope.set 0 s0).set 1 s1).set 2 s2) = _
  rfl

/-- C2 witness: the amended round trip at a concrete descriptor using both
the include and the exclude form. -/
theorem c2_roundtrip_witness :
    goodSub (some [1, 2], none) = true ∧ goodSub (none, some [3]) = true
    ∧ goodSub (some [7], none) = true
    ∧ ContextScope.parse
        (ContextScope.stringify [(some [1, 2], none), (none, some [3]), (some [7], none)])
      = Except.ok [(some [1, 2], none), (none, some [3]), (some [7], none)] :=
  ⟨by decide, by decide, by decide,
    c2_roundtrip (some [1, 2], none) (none, some [3]) (some [7], none)
      (by decide) (by decide) (by decide)⟩

/-! ## Entity cache and observable bindings (`Context.observeGroup` /
`Context.observeUser`, `context.ts` lines 318-412)

Records are modelled as association lists of field names to integer values
plus the `_timestamp` property the cache stamps onto them.  Persistent
storage is modelled as an oracle `store : String → Int` giving the stored
value of each field for the entity under consideration; `getUser` /
`getGroup` return exactly the requested fields (any storage satisfying the
§6 contract may do so).  Each call returns, besides the bound record and
the updated keyed cache, the list of fetches it performed (each fetch is
the list of field names requested from storage), so that fetch-counting
claims are statable. -/

/-- A user or group record: its data fields and its `_timestamp` stamp. -/
structure DataRecord where
  fields : List (String × Int)
  timestamp : Int
deriving DecidableEq, Repr

/-- `Object.keys` of a cached record: the data fields plus `_timestamp`. -/
def keysOf (r : DataRecord) : List String :=
  r.fields.map Prod.fst ++ [str0]
  where str0 : String := "_timestamp"

/-- Set (or insert) one field of an association list, as JS property
assignment does. -/
def setField (fs : List (String × Int)) (k : String) (v : Int) : List (String × Int) :=
  if (fs.map Prod.fst).contains k then
    fs.map fun p => if p.1 = k then (k, v) else p
  else fs ++ [(k, v)]

/-- Modelled from the spec: `_merge` of an observed entity (from the
utilities package, not under src/) copies the fetched fields into the bound
entity's record ("merge into the bound entity"); pending diffs are empty in
the scenarios considered. -/
def mergeFields (target newFields : List (String × Int)) : List (String × Int) :=
  newFields.foldl (fun acc p => setField acc p.1 p.2) target

/-- The outcome of one `observeGroup` call. -/
structure ObserveGroupResult where
  bound : DataRecord
  cache : Nat → Option DataRecord
  fetched : List (List String)

/-- `Context.observeGroup` (`context.ts` lines 319-358) for one event.
`fields` is the requested field iterable, `argvFields` the extra fields
collected from `meta.$argv` (empty when no `$argv` is attached), `bound`
the record underlying an already-bound `meta.$group` (if any), and
`groupCache` the keyed cache.  `now` models `Date.now()` and `timeout` the
`groupCacheTimeout` option. -/
def Context.observeGroup (store : String → Int) (now timeout : Int)
    (groupId : Nat) (fields argvFields : List String)
    (bound : Option DataRecord) (groupCache : Nat → Option DataRecord) :
    ObserveGroupResult :=
  let fieldSet := dedupFirstAux [] (fields ++ argvFields)
  match bound with
  | some g =>
    -- fields already present on the bound entity are deleted from the set
    let remaining := fieldSet.filter fun f => !(keysOf g).contains f
    if remaining.isEmpty then ⟨g, groupCache, []⟩
    else
      let data : DataRecord := ⟨remaining.map fun f => (f, store f), now⟩
      ⟨⟨mergeFields g.fields data.fields, g.timestamp⟩,
        fun i => if i = groupId then some data else groupCache i, [remaining]⟩
  | none =>
    match groupCache groupId with
    | some c =>
      if contain (keysOf c) fieldSet && decide (now - c.timestamp < timeout) then
        ⟨c, groupCache, []⟩
      else
        let data : DataRecord := ⟨fieldSet.map fun f => (f, store f), now⟩
        ⟨data, fun i => if i = groupId then some data else groupCache i, [fieldSet]⟩
    | none =>
      let data : DataRecord := ⟨fieldSet.map fun f => (f, store f), now⟩
      ⟨data, fun i => if i = groupId then some data else groupCache i, [fieldSet]⟩

theorem observeGroup_cache_hit (store : String → Int) (now timeout : Int)
    (gid : Nat) (fields argvFields : List String)
    (gc : Nat → Option DataRecord) (c : DataRecord)
    (hc : gc gid = some c)
    (hcond : (contain (keysOf c) (dedupFirstAux [] (fields ++ argvFields))
        && decide (now - c.timestamp < timeout)) = true) :
    Context.observeGroup store now timeout gid fields argvFields none gc
      = ⟨c, gc, []⟩ := by
  unfold Context.observeGroup
  simp only [hc]
  rw [if_pos hcond]

/-- The first request of the C3 scenario: fields `{x}` for id 7 with an
empty cache and no bound entity. -/
def c3r1 : ObserveGroupResult :=
  Context.observeGroup (fun _ => 0) 0 10 7 ["x"] [] none fun _ => none

/-- The second request of the C3 scenario: fields `{x}` again, within the
timeout, against the cache left by the first request. -/
def c3r2 : ObserveGroupResult :=
  Context.observeGroup (fun _ => 0) 1 10 7 ["x"] [] none c3r1.cache

/-- The third request of the C3 scenario: fields `{x, y}` on the event
carrying the entity bound by the first request. -/
def c3r3 : ObserveGroupResult :=
  Context.observeGroup (fun _ => 0) 2 10 7 ["x", "y"] [] (some c3r1.bound) c3r2.cache

/-- C3 (counterexample): after the third request the keyed cache holds only
the freshly fetched `{y}` record (with refreshed timestamp), not the merged
record — `context.ts` line 333 stores `data` (the fetch result), so the
stored entry does not satisfy `{x, y}`. -/
theorem c3_counterexample :
    c3r3.cache 7 = some ⟨[("y", 0)], 2⟩
    ∧ contain (keysOf ⟨[("y", 0)], 2⟩) ["x", "y"] = false := by
  decide

/-- C3 (amended): requesting `{x}` with no cache entry fetches exactly
once; a second request for `{x}` within the timeout fetches nothing and
returns the same values; a request for `{x, y}` on the event with the
bound entity fetches exactly `{y}`, merges it into the bound entity
(which then satisfies both fields) and refreshes the stored timestamp —
but the record stored back into the keyed cache is the *freshly fetched*
`{y}`-only record, not the merged one. -/
theorem c3_cache_discipline (store : String → Int) (t1 t2 t3 timeout : Int)
    (h : t2 - t1 < timeout) (r1 r2 r3 : ObserveGroupResult)
    (hr1 : r1 = Context.observeGroup store t1 timeout 7 ["x"] [] none fun _ => none)
    (hr2 : r2 = Context.observeGroup store t2 timeout 7 ["x"] [] none r1.cache)
    (hr3 : r3 = Context.observeGroup store t3 timeout 7 ["x", "y"] []
      (some r1.bound) r2.cache) :
    r1.fetched = [["x"]]
    ∧ r1.bound = ⟨[("x", store "x")], t1⟩
    ∧ r2.fetched = []
    ∧ r2.bound = r1.bound
    ∧ r3.fetched = [["y"]]
    ∧ r3.bound = ⟨[("x", store "x"), ("y", store "y")], t1⟩
    ∧ r3.cache 7 = some ⟨[("y", store "y")], t3⟩
    ∧ contain (keysOf ⟨[("y", store "y")], t3⟩) ["x", "y"] = false := by
  subst hr1 hr2 hr3
  have e1 : Context.observeGroup store t1 timeout 7 ["x"] [] none (fun _ => none)
      = ⟨⟨[("x", store "x")], t1⟩,
          (fun i => if i = 7 then some ⟨[("x", store "x")], t1⟩ else none), [["x"]]⟩ := rfl
  rw [e1]
  have e2 : Context.observeGroup store t2 timeout 7 ["x"] [] none
      (fun i => if i = 7 then some (⟨[("x", store "x")], t1⟩ : DataRecord) else none)
      = ⟨⟨[("x", store "x")], t1⟩,
          (fun i => if i = 7 then some ⟨[("x", store "x")], t1⟩ else none), []⟩ := by
    apply observeGroup_cache_hit
    · rfl
    · rw [decide_eq_true h]
      rfl
  rw [e2]
  exact ⟨rfl, rfl, rfl, rfl, rfl, rfl, rfl, rfl⟩

/-- C3 witness: the amended cache discipline at the concrete scenario
(storage constantly 0, times 0, 1, 2, timeout 10). -/
theorem c3_cache_discipline_witness :
    ((1 : Int) - 0 < 10)
    ∧ (c3r1.fetched = [["x"]]
        ∧ c3r1.bound = ⟨[("x", 0)], 0⟩
        ∧ c3r2.fetched = []
        ∧ c3r2.bound = c3r1.bound
        ∧ c3r3.fetched = [["y"]]
        ∧ c3r3.bound = ⟨[("x", 0), ("y", 0)], 0⟩
        ∧ c3r3.cache 7 = some ⟨[("y", 0)], 2⟩
        ∧ contain (keysOf ⟨[("y", 0)], 2⟩) ["x", "y"] = false) :=
  ⟨by decide,
    c3_cache_discipline (fun _ => 0) 0 1 2 10 (by decide) c3r1 c3r2 c3r3 rfl rfl rfl⟩

/-! ### `Context.observeUser` (`context.ts` lines 360-412) -/

/-- The `defaultAuthority` application option: a number, absent, or a
per-event resolver function (here a function of the user id and the
anonymous flag, the parts of the event the resolver can inspect). -/
inductive AuthorityConfig where
  | value (n : Option Int)
  | resolver (f : Nat → Bool → Int)

/-- `typeof defaultAuthority === 'function' ? defaultAuthority(meta) :
defaultAuthority || 0` — an absent value resolves to 0 (and `n || 0` is `n`
for every integral number, `0 || 0` being `0`). -/
def resolveAuthority : AuthorityConfig → Nat → Bool → Int
  | .value none, _, _ => 0
  | .value (some v), _, _ => v
  | .resolver f, uid, anon => f uid anon

/-- Modelled from the spec: `createUser(id, authority)` from the database
module (not under src/) — synthesize an in-memory user record carrying the
resolved default authority; it is never stamped into the cache. -/
def createUser (id : Nat) (authority : Int) : DataRecord :=
  ⟨[("id", (id : Int)), ("authority", authority)], 0⟩

/-- An observable binding as produced by `observe(data, update?, label?)`:
the underlying record plus the write-back target (`some id` when the
binding was created with the `setUser`-diff callback for that id, `none`
when no update callback was supplied). -/
structure Observed where
  data : DataRecord
  writeback : Option Nat
deriving DecidableEq

/-- A call to one of the storage mutators. -/
inductive DbWrite where
  | setUser (id : Nat) (diff : List (String × Int))
  | setGroup (id : Nat) (diff : List (String × Int))
deriving DecidableEq

/-- Modelled from the spec: flushing an observable binding sends its
accumulated diff through the write-back callback; a binding with no
write-back target persists nothing. -/
def Observed.flush (o : Observed) (diff : List (String × Int)) : List DbWrite :=
  match o.writeback with
  | some id => [DbWrite.setUser id diff]
  | none => []

/-- The outcome of one `observeUser` call. -/
structure ObserveUserResult where
  bound : Observed
  cache : Nat → Option DataRecord
  fetched : List (List String)

/-- `Context.observeUser` (`context.ts` lines 361-412) for one event:
field supplementation for an already-bound non-anonymous `$user`; an
in-memory record with no write-back and no cache store for anonymous
senders; otherwise the TTL'd keyed cache backed by `getUser`, with the
record wrapped in a binding whose write-back is `setUser(userId, diff)`. -/
def Context.observeUser (store : String → Int) (now timeout : Int)
    (auth : AuthorityConfig) (userId : Nat) (fields argvFields : List String)
    (anonymous : Bool) (bound : Option Observed)
    (userCache : Nat → Option DataRecord) : ObserveUserResult :=
  let fieldSet := dedupFirstAux [] (fields ++ argvFields)
  match bound with
  | some u =>
    if anonymous then ⟨u, userCache, []⟩
    else
      let remaining := fieldSet.filter fun f => !(keysOf u.data).contains f
      if remaining.isEmpty then ⟨u, userCache, []⟩
      else
        let data : DataRecord := ⟨remaining.map fun f => (f, store f), now⟩
        ⟨⟨⟨mergeFields u.data.fields data.fields, u.data.timestamp⟩, u.writeback⟩,
          fun i => if i = userId then some data else userCache i, [remaining]⟩
  | none =>
    let defaultAuthority := resolveAuthority auth userId anonymous
    if anonymous then
      ⟨⟨createUser userId defaultAuthority, none⟩, userCache, []⟩
    else
      match userCache userId with
      | some c =>
        if contain (keysOf c) fieldSet && decide (now - c.timestamp < timeout) then
          ⟨⟨c, some userId⟩, userCache, []⟩
        else
          let data : DataRecord := ⟨fieldSet.map fun f => (f, store f), now⟩
          ⟨⟨data, some userId⟩,
            fun i => if i = userId then some data else userCache i, [fieldSet]⟩
      | none =>
        let data : DataRecord := ⟨fieldSet.map fun f => (f, store f), now⟩
        ⟨⟨data, some userId⟩,
          fun i => if i = userId then some data else userCache i, [fieldSet]⟩

/-! ## Claim C4: anonymous events never reach the storage mutators -/

/-- C4 (confirmed): for every event flagged anonymous, `observeUser`
performs no fetch and no cache store, synthesizes the sender's record
in-memory via `createUser` with the resolved default authority, and wraps
it in a binding with no write-back target, so flushing any accumulated
mutation diff issues no `setUser`/`setGroup` call; if the event already
carries a bound entity (necessarily created this way while anonymous, hence
without a write-back target), the call returns it unchanged and stores
nothing either. -/
theorem c4_anonymous_never_persisted (store : String → Int) (now timeout : Int)
    (auth : AuthorityConfig) (userId : Nat) (fields argvFields : List String)
    (userCache : Nat → Option DataRecord) :
    (let r := Context.observeUser store now timeout auth userId fields argvFields
        true none userCache
     r.bound.writeback = none
     ∧ r.bound.data = createUser userId (resolveAuthority auth userId true)
     ∧ r.cache = userCache
     ∧ r.fetched = []
     ∧ ∀ diff, r.bound.flush diff = [])
    ∧ ∀ d : DataRecord,
        (let r := Context.observeUser store now timeout auth userId fields argvFields
            true (some ⟨d, none⟩) userCache
         r.bound = ⟨d, none⟩
         ∧ r.cache = userCache
         ∧ r.fetched = []
         ∧ ∀ diff, r.bound.flush diff = []) :=
  ⟨⟨rfl, rfl, rfl, rfl, fun _ => rfl⟩,
    fun _ => ⟨rfl, rfl, rfl, fun _ => rfl⟩⟩

/-! ## Command execution (`Command.execute`, `command.ts` lines 207-241)

An action's behaviour is modelled by what it does in sequence: return an
optional string, throw, or invoke the wrapped continuation `argv.next` and
continue.  The dispatch-state flag of `execute` (`'before command'`,
cleared while the continuation runs and restored afterwards) is tracked
through the evaluation; the stack-trimming and logging of a caught error
are irrelevant to control flow and are represented by the `suppressed`
outcome (the invocation resolves with no result). -/

/-- What one action does when invoked. -/
inductive ActionStep where
  | ret (r : Option String)
  | throwErr (e : String)
  | callNext (rest : ActionStep)
deriving DecidableEq

/-- The outcome of `Command.execute`: a string result, an error caught and
suppressed (resolving with no result), or an error propagated to the
caller. -/
inductive ExecResult where
  | ok (s : String)
  | suppressed (e : String)
  | raised (e : String)
deriving DecidableEq

/-- Run one action.  `nextRes` is the behaviour of the outer continuation
(`none` = returns normally, `some e` = throws `e`).  The result is either
the action's returned value or the thrown error paired with the
dispatch-state flag at the moment the error surfaces: `true` while the
state still holds the `'before command'` marker, `false` while the state
was cleared inside the wrapped continuation (a throw from `next` skips the
restoring assignment). -/
def runOneAction : ActionStep → Option String → Except (String × Bool) (Option String)
  | .ret r, _ => .ok r
  | .throwErr e, _ => .error (e, true)
  | .callNext rest, nextRes =>
    match nextRes with
    | some e => .error (e, false)
    | none => runOneAction rest none

/-- Run the action chain (`command.ts` lines 227-230 with the catch of
lines 232-240): the first action whose result is a string (`typeof result
=== 'string'`) ends the loop with that string; when no action returns a
string the result is `''`; a thrown error is suppressed when the state
flag still holds the marker and re-thrown otherwise.  Also returns how
many actions were invoked. -/
def runChain : List ActionStep → Option String → ExecResult × Nat
  | [], _ => (.ok "", 0)
  | a :: rest, nextRes =>
    match runOneAction a nextRes with
    | .ok (some s) => (.ok s, 1)
    | .ok none =>
      let r := runChain rest nextRes
      (r.1, r.2 + 1)
    | .error (e, st) => (if st then .suppressed e else .raised e, 1)

/-- The inputs of one `Command.execute` invocation: the outcome of the
`before-command` serial hook (an error, a string result, or nothing), the
registered action chain, and the behaviour of the continuation. -/
structure ExecInput where
  beforeCommand : Except String (Option String)
  actions : List ActionStep
  nextRes : Option String

/-- `Command.execute` (`command.ts` lines 207-241): run `before-command`
(returning its string result if any, suppressing its error — the state
flag still holds the marker there), then the action chain.  The second
component counts invoked actions. -/
def Command.executeM (inp : ExecInput) : ExecResult × Nat :=
  match inp.beforeCommand with
  | .error e => (.suppressed e, 0)
  | .ok (some s) => (.ok s, 0)
  | .ok none => runChain inp.actions inp.nextRes

/-- `Command.action` (`command.ts` lines 198-205): append the callback, or
insert it at the front when `prepend` is set. -/
def Command.action (actions : List ActionStep) (cb : ActionStep)
    (prepend : Bool) : List ActionStep :=
  if prepend then cb :: actions else actions ++ [cb]

/-! ## Claim C5: action-chain halting -/

/-- C5 (counterexample): with actions `[A, B, C]` registered in order and
no prepend, where A returns the *empty* string and B returns `"b"`, the
chain halts at A with result `""` — `typeof result === 'string'` is true
for the empty string too (`command.ts` line 229) — so although B returns a
non-empty string, the result is not B's string and only one action runs. -/
theorem c5_counterexample :
    Command.executeM ⟨Except.ok none,
        Command.action (Command.action (Command.action []
          (.ret (some "")) false) (.ret (some "b")) false) (.ret none) false,
        none⟩
      = (.ok "", 1)
    ∧ ExecResult.ok "" ≠ ExecResult.ok "b" := by
  decide

/-- C5 (amended): an action returning *any* string — the empty string
included — is the one that halts the chain.  With `[A, B, C]` registered
in that order and no prepend: if A returns no string and B returns a
string `s` (empty or not), the result is `s` and C never executes; an
action returning a string halts the chain immediately; and if no action
returns a string the result is the empty string after all actions ran. -/
theorem c5_action_chain (s : String) (c : ActionStep) (nextRes : Option String) :
    Command.executeM ⟨Except.ok none,
        Command.action (Command.action (Command.action []
          (.ret none) false) (.ret (some s)) false) c false,
        nextRes⟩
      = (.ok s, 2)
    ∧ (∀ rest : List ActionStep, runChain (.ret (some s) :: rest) nextRes = (.ok s, 1))
    ∧ Command.executeM ⟨Except.ok none,
        Command.action (Command.action (Command.action []
          (.ret none) false) (.ret none) false) (.ret none) false,
        nextRes⟩
      = (.ok "", 3) :=
  ⟨rfl, fun _ => rfl, rfl⟩

/-! ## Claim C6: error attribution in command execution -/

/-- C6 (counterexample): an action that invokes the wrapped continuation
(which returns normally, restoring the `'before command'` marker) and
*then* throws has its error caught and suppressed — the invocation
resolves with no result — even though the continuation had been entered;
the claim says such an error propagates to the caller. -/
theorem c6_counterexample :
    Command.executeM ⟨Except.ok none, [.callNext (.throwErr "e")], none⟩
      = (.suppressed "e", 1)
    ∧ ExecResult.suppressed "e" ≠ ExecResult.raised "e" := by
  decide

/-- C6 (amended): an error raised while the dispatch state holds the
initial `'before command'` marker — from the `before-command` hook, from an
action that has not invoked the continuation, or from an action after the
continuation returned and the marker was restored — is caught and
suppressed, resolving with no result; an error raised *while the wrapped
continuation is executing* (entered and not yet returned) is re-thrown and
propagates to the caller. -/
theorem c6_error_attribution (e : String) (k : ActionStep)
    (acts rest : List ActionStep) (nextRes : Option String) :
    Command.executeM ⟨Except.error e, acts, nextRes⟩ = (.suppressed e, 0)
    ∧ Command.executeM ⟨Except.ok none, .throwErr e :: rest, nextRes⟩
        = (.suppressed e, 1)
    ∧ Command.executeM ⟨Except.ok none, .callNext k :: rest, some e⟩
        = (.raised e, 1)
    ∧ Command.executeM ⟨Except.ok none, .callNext (.throwErr e) :: rest, none⟩
        = (.suppressed e, 1) :=
  ⟨rfl, rfl, rfl, rfl⟩

/-! ## Fan-out dispatch (`Context.parallelize`, `context.ts` lines 150-159)

Each handler's asynchronous operation is modelled as a task with a logical
settle time and an outcome.  `Promise.all` resolves, once every task has
settled, with the list of values — but it *rejects as soon as the first
rejection occurs*, with that rejection's error, without waiting for the
remaining tasks (which keep running uncancelled). -/

deriving instance DecidableEq for Except

/-- One handler's asynchronous operation: when it settles and how. -/
structure PTask where
  time : Nat
  result : Except String String
deriving DecidableEq

/-- The aggregate operation returned by `parallelize`. -/
structure PAgg where
  time : Nat
  result : Except String (List String)
deriving DecidableEq

/-- The first rejection among the tasks, in time order (list order breaking
ties): the pair of its settle time and its error, if any task rejects. -/
def firstRejection : List PTask → Option (Nat × String)
  | [] => none
  | t :: ts =>
    match t.result with
    | .error e =>
      match firstRejection ts with
      | some (n, e') => if n < t.time then some (n, e') else some (t.time, e)
      | none => some (t.time, e)
    | .ok _ => firstRejection ts

/-- When every task settles successfully: the time the last one settles. -/
def maxSettle (ts : List PTask) : Nat := ts.foldl (fun m t => max m t.time) 0

/-- The resolution values of the tasks (total function; only used when all
tasks succeed). -/
def okValues (ts : List PTask) : List String :=
  ts.map fun t => match t.result with | .ok v => v | .error _ => ""

/-- `Promise.all` over the tasks: resolves with all values once every task
has settled, or rejects with the first rejection's error at that
rejection's time. -/
def promiseAll (ts : List PTask) : PAgg :=
  match firstRejection ts with
  | some (n, e) => ⟨n, .error e⟩
  | none => ⟨maxSettle ts, .ok (okValues ts)⟩

/-- The tasks pushed by the `parallelize` loop: one per registered hook
whose context matches the event. -/
def matchingTasks (hooks : List (ContextScope × PTask)) (meta : Context.MetaTag) :
    List PTask :=
  (hooks.filter fun h => Context.matchMeta h.1 meta).map Prod.snd

/-- `Context.parallelize` (`context.ts` lines 150-159): start the matching
handlers' operations and `await Promise.all(tasks)`. -/
def Context.parallelize (hooks : List (ContextScope × PTask))
    (meta : Context.MetaTag) : PAgg :=
  promiseAll (matchingTasks hooks meta)

theorem firstRejection_mem :
    ∀ (ts : List PTask) (n : Nat) (e : String),
      firstRejection ts = some (n, e) →
        ∃ t ∈ ts, t.time = n ∧ t.result = Except.error e := by
  intro ts
  induction ts with
  | nil => intro n e h; simp [firstRejection] at h
  | cons t rest ih =>
    intro n e h
    unfold firstRejection at h
    cases hr : t.result with
    | ok v => simp only [hr] at h; rcases ih n e h with ⟨u, hu, hn, he⟩
              exact ⟨u, List.mem_cons_of_mem _ hu, hn, he⟩
    | error e' =>
      simp only [hr] at h
      cases hfr : firstRejection rest with
      | none =>
        simp only [hfr] at h
        obtain ⟨rfl, rfl⟩ : t.time = n ∧ e' = e := by
          simpa using h
        exact ⟨t, by simp, rfl, hr⟩
      | some p =>
        obtain ⟨m, e''⟩ := p
        simp only [hfr] at h
        by_cases hlt : m < t.time
        · rw [if_pos hlt] at h
          obtain ⟨rfl, rfl⟩ : m = n ∧ e'' = e := by simpa using h
          rcases ih _ _ hfr with ⟨u, hu, hn, he⟩
          exact ⟨u, List.mem_cons_of_mem _ hu, hn, he⟩
        · rw [if_neg hlt] at h
          obtain ⟨rfl, rfl⟩ : t.time = n ∧ e' = e := by simpa using h
          exact ⟨t, by simp, rfl, hr⟩

theorem firstRejection_none :
    ∀ ts : List PTask, (∀ t ∈ ts, exceptIsError t.result = false) →
      firstRejection ts = none := by
  intro ts
  induction ts with
  | nil => intro _; rfl
  | cons t rest ih =>
    intro h
    unfold firstRejection
    cases hr : t.result with
    | ok v => exact ih fun u hu => h u (List.mem_cons_of_mem _ hu)
    | error e =>
      have := h t (by simp)
      rw [hr] at this
      simp [exceptIsError] at this

theorem le_foldl_max : ∀ (ts : List PTask) (a : Nat),
    a ≤ ts.foldl (fun m t => max m t.time) a := by
  intro ts
  induction ts with
  | nil => intro a; simp
  | cons t rest ih =>
    intro a
    calc a ≤ max a t.time := Nat.le_max_left _ _
    _ ≤ rest.foldl (fun m t => max m t.time) (max a t.time) := ih _

theorem mem_le_foldl_max : ∀ (ts : List PTask) (a : Nat) (t : PTask),
    t ∈ ts → t.time ≤ ts.foldl (fun m u => max m u.time) a := by
  intro ts
  induction ts with
  | nil => intro a t h; simp at h
  | cons u rest ih =>
    intro a t h
    rcases List.mem_cons.mp h with rfl | h
    · calc t.time ≤ max a t.time := Nat.le_max_right _ _
      _ ≤ rest.foldl (fun m u => max m u.time) (max a t.time) := le_foldl_max _ _
    · exact ih _ t h

/-- The two hooks of the C7 counterexample: one handler failing at time 5,
one succeeding at time 10, both matching every event. -/
def c7hooks : List (ContextScope × PTask) :=
  [([(some [1], none)], ⟨5, Except.error "e"⟩),
   ([(some [1], none)], ⟨10, Except.ok "v"⟩)]

/-- C7 (counterexample): `Promise.all` rejects as soon as the first handler
fails — here at time 5, with a handler still running until time 10 — so
the aggregate operation does *not* wait for every handler to settle before
failing, contrary to the claim. -/
theorem c7_counterexample :
    Context.parallelize c7hooks none = ⟨5, Except.error "e"⟩
    ∧ ¬ (∀ t ∈ matchingTasks c7hooks none,
          t.time ≤ (Context.parallelize c7hooks none).time) := by
  decide

/-- C7 (amended): every handler whose context matches the event is
invoked; if every handler's operation succeeds, the call resolves with all
results once the last one has settled; if some handler's operation fails,
the aggregate operation fails with the *first* rejection's error at the
moment that rejection occurs — possibly before other handlers have
settled; the already-running handlers are not cancelled (they remain in
the task list), and the failure time never exceeds the last settle time. -/
theorem c7_fanout (hooks : List (ContextScope × PTask)) (meta : Context.MetaTag) :
    (∀ h ∈ hooks, Context.matchMeta h.1 meta = true →
        h.2 ∈ matchingTasks hooks meta)
    ∧ ((∀ t ∈ matchingTasks hooks meta, exceptIsError t.result = false) →
        Context.parallelize hooks meta
          = ⟨maxSettle (matchingTasks hooks meta),
             Except.ok (okValues (matchingTasks hooks meta))⟩)
    ∧ (∀ n e, firstRejection (matchingTasks hooks meta) = some (n, e) →
        Context.parallelize hooks meta = ⟨n, Except.error e⟩
        ∧ (∃ t ∈ matchingTasks hooks meta, t.time = n ∧ t.result = Except.error e)
        ∧ n ≤ maxSettle (matchingTasks hooks meta)) := by
  refine ⟨?_, ?_, ?_⟩
  · intro h hh hm
    unfold matchingTasks
    exact List.mem_map_of_mem _ (List.mem_filter.mpr ⟨hh, hm⟩)
  · intro hok
    unfold Context.parallelize promiseAll
    rw [firstRejection_none _ hok]
  · intro n e hfr
    refine ⟨?_, firstRejection_mem _ n e hfr, ?_⟩
    · unfold Context.parallelize promiseAll
      rw [hfr]
    · rcases firstRejection_mem _ n e hfr with ⟨t, ht, hn, _⟩
      exact hn ▸ mem_le_foldl_max _ 0 t ht

/-- C7 witness: the amended fan-out behaviour at concrete hooks — two
matching handlers succeeding at times 5 and 10 resolve together at
time 10 with both values. -/
theorem c7_fanout_witness :
    Context.parallelize
        [([(some [1], none)], ⟨5, Except.ok "a"⟩),
         ([(some [2], none)], ⟨10, Except.ok "b"⟩)] none
      = ⟨10, Except.ok ["a", "b"]⟩ := by
  have h := (c7_fanout
    [([(some [1], none)], ⟨5, Except.ok "a"⟩),
     ([(some [2], none)], ⟨10, Except.ok "b"⟩)] none).2.1
  rw [h (by decide)]
  decide

/-! ## `once` listeners and reentrant dispatch (`Context.once` /
`Context.removeListener`, `context.ts` lines 211-229)

Hooks for one event name are modelled by the list of their registration
identities (each `once` registration is a distinct wrapper closure, so
identities are unique per registration).  A listener body is a sequence of
primitive steps: re-emit the same event, or throw.  Dispatch iterates the
live hook list by index, as a JS `for…of` over the mutated array does; a
`once` wrapper first removes itself (`unsubscribe()` precedes
`listener.apply`, `context.ts` lines 212-215) and then runs the body; a
truthy return value ends the loop as in `bail`; a thrown error aborts the
loop and propagates.  Execution is fuel-bounded; exhausted fuel aborts,
which only ever under-approximates the number of body runs. -/

/-- A primitive step of a listener body. -/
inductive BStep where
  | emitB
  | throwB
deriving DecidableEq

/-- The hook system for one event name: whether each registration is a
`once` wrapper, its body, and whether its return value is truthy (ending a
`bail`-style dispatch). -/
structure HookSys where
  isOnce : Nat → Bool
  body : Nat → List BStep
  retTruthy : Nat → Bool

/-- The outcome of a dispatch or body run: the hook list afterwards, the
registrations whose bodies ran (with multiplicity, in order), and whether
an error is propagating. -/
structure DispatchOut where
  hooks : List Nat
  runs : List Nat
  threw : Bool
deriving DecidableEq

/-- `Context.removeListener` (`context.ts` lines 223-229): splice out the
first hook entry with the given identity. -/
def removeFirst : List Nat → Nat → List Nat
  | [], _ => []
  | x :: xs, r => if x = r then xs else x :: removeFirst xs r

mutual

/-- One event dispatch, iterating the live hook list from `idx` upward.  A
`once` wrapper removes itself before its body runs. -/
def emitLoop (sys : HookSys) : Nat → List Nat → Nat → DispatchOut
  | 0, st, _ => ⟨st, [], true⟩
  | fuel + 1, st, idx =>
    if h : idx < st.length then
      match runBody sys fuel
          (if sys.isOnce st[idx] then removeFirst st st[idx] else st)
          (sys.body st[idx]) with
      | ⟨st2, runs2, true⟩ => ⟨st2, st[idx] :: runs2, true⟩
      | ⟨st2, runs2, false⟩ =>
        if sys.retTruthy st[idx] then ⟨st2, st[idx] :: runs2, false⟩
        else
          match emitLoop sys fuel st2 (idx + 1) with
          | ⟨st3, runs3, threw3⟩ => ⟨st3, st[idx] :: (runs2 ++ runs3), threw3⟩
    else ⟨st, [], false⟩

/-- Run a listener body: each step either re-emits the same event (a throw
from the nested dispatch propagates, making the body throw) or throws. -/
def runBody (sys : HookSys) : Nat → List Nat → List BStep → DispatchOut
  | 0, st, _ => ⟨st, [], true⟩
  | _ + 1, st, [] => ⟨st, [], false⟩
  | _ + 1, st, BStep.throwB :: _ => ⟨st, [], true⟩
  | fuel + 1, st, BStep.emitB :: rest =>
    match emitLoop sys fuel st 0 with
    | ⟨st1, runs1, true⟩ => ⟨st1, runs1, true⟩
    | ⟨st1, runs1, false⟩ =>
      match runBody sys fuel st1 rest with
      | ⟨st2, runs2, threw2⟩ => ⟨st2, runs1 ++ runs2, threw2⟩

end

theorem count_removeFirst_self (r : Nat) :
    ∀ st : List Nat, r ∈ st → (removeFirst st r).count r + 1 = st.count r := by
  intro st
  induction st with
  | nil => intro h; simp at h
  | cons x xs ih =>
    intro h
    by_cases hx : x = r
    · subst hx
      simp [removeFirst, List.count_cons]
    · have hr : r ∈ xs := by
        rcases List.mem_cons.mp h with rfl | h
        · exact absurd rfl hx
        · exact h
      have hrx : ¬ r = x := fun hh => hx hh.symm
      have h1 : removeFirst (x :: xs) r = x :: removeFirst xs r := by
        simp [removeFirst, hx]
      have h2 := ih hr
      rw [h1, List.count_cons, List.count_cons]
      have h3 : (x == r) = false := by simp [hx]
      rw [h3]
      simp only [Bool.false_eq_true, if_false]
      omega

theorem count_removeFirst_le (r : Nat) :
    ∀ (st : List Nat) (x : Nat), (removeFirst st x).count r ≤ st.count r := by
  intro st
  induction st with
  | nil => intro x; simp [removeFirst]
  | cons y ys ih =>
    intro x
    by_cases hy : y = x
    · subst hy
      have h1 : removeFirst (y :: ys) y = ys := by simp [removeFirst]
      rw [h1, List.count_cons]
      split <;> omega
    · have h1 : removeFirst (y :: ys) x = y :: removeFirst ys x := by
        simp [removeFirst, hy]
      have h2 := ih x
      rw [h1, List.count_cons, List.count_cons]
      cases hc : (y == r) <;> simp [hc] <;> omega

theorem once_invariant (sys : HookSys) (r : Nat) (hr : sys.isOnce r = true) :
    ∀ fuel : Nat,
      (∀ (st : List Nat) (idx : Nat),
        (emitLoop sys fuel st idx).runs.count r
          + (emitLoop sys fuel st idx).hooks.count r ≤ st.count r)
      ∧ (∀ (st : List Nat) (steps : List BStep),
        (runBody sys fuel st steps).runs.count r
          + (runBody sys fuel st steps).hooks.count r ≤ st.count r) := by
  intro fuel
  induction fuel with
  | zero =>
    constructor
    · intro st idx; simp [emitLoop]
    · intro st steps; simp [runBody]
  | succ fuel ih =>
    obtain ⟨ihE, ihB⟩ := ih
    constructor
    · intro st idx
      simp only [emitLoop]
      by_cases h : idx < st.length
      · rw [dif_pos h]
        have hcc : ∀ l : List Nat,
            (st[idx] :: l).count r = l.count r + (if st[idx] = r then 1 else 0) := by
          intro l
          rw [List.count_cons]
          by_cases hidr : st[idx] = r <;> simp [hidr]
        cases hrb : runBody sys fuel
            (if sys.isOnce st[idx] then removeFirst st st[idx] else st)
            (sys.body st[idx]) with
        | mk st2 runs2 threw2 =>
        have hB : runs2.count r + st2.count r
            ≤ (if sys.isOnce st[idx] then removeFirst st st[idx] else st).count r := by
          have hh := ihB (if sys.isOnce st[idx] then removeFirst st st[idx] else st)
            (sys.body st[idx])
          rw [hrb] at hh
          exact hh
        have hup : ∀ X : Nat,
            runs2.count r + X
              ≤ (if sys.isOnce st[idx] then removeFirst st st[idx] else st).count r →
            (if st[idx] = r then 1 else 0) + runs2.count r + X ≤ st.count r := by
          intro X hX
          by_cases hidr : st[idx] = r
          · have hmem : r ∈ st := by
              rw [← hidr]
              exact List.getElem_mem h
            have hone : sys.isOnce st[idx] = true := by rw [hidr]; exact hr
            rw [hone] at hX
            simp only [if_true] at hX
            rw [hidr] at hX
            have hcnt := count_removeFirst_self r st hmem
            rw [if_pos hidr]
            omega
          · rw [if_neg hidr]
            have hle : (if sys.isOnce st[idx] then removeFirst st st[idx] else st).count r
                ≤ st.count r := by
              split
              · exact count_removeFirst_le r st _
              · exact Nat.le_refl _
            omega
        cases threw2 with
        | true =>
          simp only []
          rw [hcc]
          have := hup (st2.count r) hB
          omega
        | false =>
          simp only []
          by_cases hrt : sys.retTruthy st[idx] = true
          · rw [if_pos hrt]
            simp only []
            rw [hcc]
            have := hup (st2.count r) hB
            omega
          · rw [if_neg hrt]
            cases hre : emitLoop sys fuel st2 (idx + 1) with
            | mk st3 runs3 threw3 =>
            have hE := ihE st2 (idx + 1)
            rw [hre] at hE
            simp only []
            rw [hcc, List.count_append]
            have := hup (runs3.count r + st3.count r) (by simp only [] at hB hE; omega)
            simp only [] at this ⊢
            omega
      · rw [dif_neg h]
        simp
    · intro st steps
      cases steps with
      | nil => simp [runBody]
      | cons s rest =>
        cases s with
        | throwB => simp [runBody]
        | emitB =>
          simp only [runBody]
          cases hre : emitLoop sys fuel st 0 with
          | mk st1 runs1 threw1 =>
          have hE := ihE st 0
          rw [hre] at hE
          cases threw1 with
          | true => simpa using hE
          | false =>
            cases hrb : runBody sys fuel st1 rest with
            | mk st2 runs2 threw2 =>
            have hB := ihB st1 rest
            rw [hrb] at hB
            dsimp only at hE hB ⊢
            rw [hrb]
            dsimp only
            rw [List.count_append]
            omega

/-- C10 (confirmed): a listener registered via `once` has a wrapper that
removes its own registration from the hook list *before* invoking the
body, so across any dispatch — including reentrant emissions of the same
event from inside the body, bodies that throw, and any further sequence of
dispatches — the body runs at most once per registration (a registration
being a hook-list entry with a unique wrapper identity). -/
theorem c10_once_at_most_once (sys : HookSys) (r : Nat)
    (hr : sys.isOnce r = true) (st : List Nat) (hcount : st.count r ≤ 1) :
    (∀ fuel idx, (emitLoop sys fuel st idx).runs.count r ≤ 1)
    ∧ (∀ fuel steps, (runBody sys fuel st steps).runs.count r ≤ 1) := by
  constructor
  · intro fuel idx
    have h := (once_invariant sys r hr fuel).1 st idx
    omega
  · intro fuel steps
    have h := (once_invariant sys r hr fuel).2 st steps
    omega

/-- The hook system of the C10 witness: every registration is a `once`
wrapper whose body re-emits the same event twice. -/
def c10sys : HookSys :=
  ⟨fun _ => true, fun _ => [BStep.emitB, BStep.emitB], fun _ => false⟩

/-- C10 witness: the at-most-once bound evaluated on a concrete reentrant
system with two once-registrations. -/
theorem c10_once_at_most_once_witness :
    c10sys.isOnce 1 = true ∧ ([1, 2] : List Nat).count 1 ≤ 1
    ∧ (emitLoop c10sys 9 [1, 2] 0).runs.count 1 ≤ 1
    ∧ (runBody c10sys 9 [1, 2] [BStep.emitB]).runs.count 1 ≤ 1 :=
  ⟨rfl, by decide,
    (c10_once_at_most_once c10sys 1 rfl [1, 2] (by decide)).1 9 0,
    (c10_once_at_most_once c10sys 1 rfl [1, 2] (by decide)).2 9 [BStep.emitB]⟩

/-- Sanity: the bound is attained — the reentrant once-listener body does
run (exactly once) and its registration is gone afterwards. -/
example :
    (emitLoop c10sys 9 [1, 2] 0).runs.count 1 = 1
    ∧ (emitLoop c10sys 9 [1, 2] 0).hooks.count 1 = 0 := by
  decide
